/-
Verification of the gif-spinner raster-to-vector pipeline and circular
layout engine, shallowly embedded from `src/js/svgConverter.js` and
`src/js/spinnerGenerator.js`.

Embedding conventions:
* JavaScript numbers are embedded as exact rationals (`ℚ`); IEEE-754
  rounding is out of scope.
* `Math.sqrt` appears in the code only inside comparisons of nonnegative
  quantities or in normalisation of direction vectors.  Comparisons of
  Euclidean distances are embedded by the equivalent comparisons of their
  squares (squaring is strictly monotone on nonnegatives), so
  `pointLineDistance` is embedded as the squared distance `distSq` and the
  simplification tolerance parameter denotes the squared tolerance.
* Typed arrays (`Uint8Array`, pixel `data`) are embedded as functions
  `ℕ → ℕ` from flat indices to values, with byte bounds carried as
  hypotheses where a claim needs them.
* The `while` loop of the contour tracer is embedded with explicit fuel
  equal to its own step budget `width * height`, exactly the bound the
  code enforces through its `count < maxSteps` condition.
-/
import Mathlib

namespace GifSpinner

/-- A 2-D point with rational coordinates, as the `{x, y}` objects the
converter manipulates. -/
structure Point where
  x : ℚ
  y : ℚ
deriving DecidableEq, Repr, Inhabited

/-! ### PathSimplifier: `simplifyContour` (svgConverter.js, lines 385-416)

`pointLineDistance` (lines 425-461) returns the Euclidean distance from a
point to a segment; it is embedded as the squared distance (see header).
-/

/-- Squared point-to-segment distance, embedding `pointLineDistance`
(svgConverter.js lines 425-461): degenerate segments fall back to the
point distance, and the projection parameter `t` is clamped to `[0,1]`
through the two early-return branches. -/
def distSq (p lineStart lineEnd : Point) : ℚ :=
  let dx := lineEnd.x - lineStart.x
  let dy := lineEnd.y - lineStart.y
  if dx = 0 ∧ dy = 0 then
    (p.x - lineStart.x) * (p.x - lineStart.x) + (p.y - lineStart.y) * (p.y - lineStart.y)
  else
    let t := ((p.x - lineStart.x) * dx + (p.y - lineStart.y) * dy) / (dx * dx + dy * dy)
    if t < 0 then
      (p.x - lineStart.x) * (p.x - lineStart.x) + (p.y - lineStart.y) * (p.y - lineStart.y)
    else if 1 < t then
      (p.x - lineEnd.x) * (p.x - lineEnd.x) + (p.y - lineEnd.y) * (p.y - lineEnd.y)
    else
      (p.x - (lineStart.x + t * dx)) * (p.x - (lineStart.x + t * dx))
        + (p.y - (lineStart.y + t * dy)) * (p.y - (lineStart.y + t * dy))

/-- The interior indices `1 .. length-2` scanned by the max-distance loop
of `simplifyContour`. -/
def interiorIdx (n : ℕ) : List ℕ := (List.range (n - 2)).map (· + 1)

/-- The max-distance scan of `simplifyContour` (lines 389-402): running
maximum starts at `0` with index `0`, and only a strictly larger distance
updates it (ties keep the first occurrence). Returns
`(maxDist, index)` (squared distance, see header). -/
def maxDistIndex (c : List Point) : ℚ × ℕ :=
  let s := c.getD 0 default
  let e := c.getD (c.length - 1) default
  (interiorIdx c.length).foldl
    (fun acc i =>
      let d := distSq (c.getD i default) s e
      if acc.1 < d then (d, i) else acc)
    (0, 0)

/-- The recursion of `simplifyContour` (lines 385-416) with explicit fuel
bounding the recursion depth; `simplifyContour` supplies fuel equal to the
list length, which is never exhausted for nonnegative tolerances (each
recursive call strictly shortens the list).  `tolerance` denotes the
squared tolerance (see header). -/
def simplifyF : ℕ → List Point → ℚ → List Point
  | 0, c, _ => c
  | fuel + 1, c, tolerance =>
    if c.length ≤ 2 then c
    else
      let s := c.getD 0 default
      let e := c.getD (c.length - 1) default
      let md := maxDistIndex c
      if tolerance < md.1 then
        (simplifyF fuel (c.take (md.2 + 1)) tolerance).dropLast
          ++ simplifyF fuel (c.drop md.2) tolerance
      else
        [s, e]

/-- `simplifyContour(contour, tolerance)`: Ramer-Douglas-Peucker
reduction, svgConverter.js lines 385-416. -/
def simplifyContour (contour : List Point) (tolerance : ℚ) : List Point :=
  simplifyF contour.length contour tolerance

/-- Decides whether the Douglas-Peucker recursion on this contour never
meets a zero maximal deviation on a sub-segment of more than two points,
i.e. whether no interior point of any recursively considered segment lies
exactly on that segment's chord. -/
def dpPositiveF : ℕ → List Point → Bool
  | 0, _ => true
  | fuel + 1, c =>
    if c.length ≤ 2 then true
    else
      let md := maxDistIndex c
      decide (0 < md.1) && dpPositiveF fuel (c.take (md.2 + 1))
        && dpPositiveF fuel (c.drop md.2)

/-- `dpPositiveF` at the fuel used by `simplifyContour`. -/
def dpPositive (contour : List Point) : Bool :=
  dpPositiveF contour.length contour

/-! ### Lemmas about the simplifier -/

/-- A fold whose step either keeps the accumulator or records the current
list element in the second component ends with the initial accumulator or
with a recorded element of the list. -/
lemma foldl_mem_of_step (g : ℚ × ℕ → ℕ → ℚ × ℕ)
    (hg : ∀ a i, g a i = a ∨ (g a i).2 = i) :
    ∀ (l : List ℕ) (acc : ℚ × ℕ), l.foldl g acc = acc ∨ (l.foldl g acc).2 ∈ l := by
  intro l
  induction l with
  | nil => intro acc; left; rfl
  | cons x xs ih =>
    intro acc
    rw [List.foldl_cons]
    rcases ih (g acc x) with h | h
    · rw [h]
      rcases hg acc x with h' | h'
      · rw [h']; left; rfl
      · right; rw [h']; exact List.mem_cons_self x xs
    · right; exact List.mem_cons_of_mem x h

/-- When the max-distance scan returns a strictly positive maximum, the
returned split index is an interior index: `1 ≤ i` and `i + 2 ≤ length`. -/
lemma maxDistIndex_bounds (c : List Point) (h : 0 < (maxDistIndex c).1) :
    1 ≤ (maxDistIndex c).2 ∧ (maxDistIndex c).2 + 2 ≤ c.length := by
  have hstep : ∀ (a : ℚ × ℕ) (i : ℕ),
      (fun (acc : ℚ × ℕ) i =>
        let d := distSq (c.getD i default) (c.getD 0 default)
          (c.getD (c.length - 1) default)
        if acc.1 < d then (d, i) else acc) a i = a ∨
      ((fun (acc : ℚ × ℕ) i =>
        let d := distSq (c.getD i default) (c.getD 0 default)
          (c.getD (c.length - 1) default)
        if acc.1 < d then (d, i) else acc) a i).2 = i := by
    intro a i
    dsimp only
    by_cases hd : a.1 < distSq (c.getD i default) (c.getD 0 default)
        (c.getD (c.length - 1) default)
    · right; rw [if_pos hd]
    · left; rw [if_neg hd]
  have := foldl_mem_of_step _ hstep (interiorIdx c.length) (0, 0)
  rcases this with heq | hmem
  · exfalso
    have : (maxDistIndex c).1 = 0 := by
      simp only [maxDistIndex]
      rw [heq]
    rw [this] at h
    exact lt_irrefl 0 h
  · have hmem' : (maxDistIndex c).2 ∈ interiorIdx c.length := by
      simpa only [maxDistIndex] using hmem
    simp only [interiorIdx, List.mem_map, List.mem_range] at hmem'
    obtain ⟨k, hk, hk2⟩ := hmem'
    omega

/-- Endpoint and length preservation of the simplifier recursion: for a
nonempty contour and nonnegative tolerance, the output is nonempty, keeps
the first and last points, and keeps at least two points when the input
has at least two. -/
lemma simplifyF_spec : ∀ (fuel : ℕ) (l : List Point) (tol : ℚ), 0 ≤ tol → l ≠ [] →
    simplifyF fuel l tol ≠ [] ∧
    (simplifyF fuel l tol).head? = l.head? ∧
    (simplifyF fuel l tol).getLast? = l.getLast? ∧
    (2 ≤ l.length → 2 ≤ (simplifyF fuel l tol).length) := by
  intro fuel
  induction fuel with
  | zero =>
    intro l tol _ hc
    exact ⟨hc, rfl, rfl, fun h => h⟩
  | succ fuel ih =>
    intro l tol htol hc
    by_cases hlen : l.length ≤ 2
    · have hres : simplifyF (fuel + 1) l tol = l := by
        rw [simplifyF, if_pos hlen]
      rw [hres]
      exact ⟨hc, rfl, rfl, fun h => h⟩
    · have hlen3 : 3 ≤ l.length := by omega
      by_cases hbr : tol < (maxDistIndex l).1
      · -- recursive branch
        have hpos : 0 < (maxDistIndex l).1 := lt_of_le_of_lt htol hbr
        obtain ⟨hi1, hi2⟩ := maxDistIndex_bounds l hpos
        have hres : simplifyF (fuel + 1) l tol =
            (simplifyF fuel (l.take ((maxDistIndex l).2 + 1)) tol).dropLast
              ++ simplifyF fuel (l.drop (maxDistIndex l).2) tol := by
          rw [simplifyF, if_neg hlen]
          dsimp only
          rw [if_pos hbr]
        rw [hres]
        set i := (maxDistIndex l).2 with hidef
        have htake_len : (l.take (i + 1)).length = i + 1 := by
          rw [List.length_take]; omega
        have hdrop_len : (l.drop i).length = l.length - i := List.length_drop i l
        have htake_ne : l.take (i + 1) ≠ [] := by
          intro hnil; rw [hnil] at htake_len; simp at htake_len
        have hdrop_ne : l.drop i ≠ [] := by
          intro hnil
          have := List.length_drop i l
          rw [hnil] at this
          simp at this
          omega
        obtain ⟨h1ne, h1h, h1l, h1len⟩ := ih (l.take (i + 1)) tol htol htake_ne
        obtain ⟨h2ne, h2h, h2l, h2len⟩ := ih (l.drop i) tol htol hdrop_ne
        have h1len2 : 2 ≤ (simplifyF fuel (l.take (i + 1)) tol).length := by
          apply h1len; omega
        have h2len2 : 2 ≤ (simplifyF fuel (l.drop i) tol).length := by
          apply h2len; omega
        set p1 := simplifyF fuel (l.take (i + 1)) tol with hp1
        set p2 := simplifyF fuel (l.drop i) tol with hp2
        have hdl_len : p1.dropLast.length = p1.length - 1 := List.length_dropLast p1
        have hres_len : (p1.dropLast ++ p2).length = p1.length - 1 + p2.length := by
          rw [List.length_append, hdl_len]
        refine ⟨?_, ?_, ?_, ?_⟩
        · intro hnil
          have := congrArg List.length hnil
          rw [hres_len] at this
          simp at this
          omega
        · -- head
          have hdl_head : p1.dropLast.head? = p1.head? := by
            rw [List.dropLast_eq_take, List.head?_take]
            have : ¬ (p1.length - 1 = 0) := by omega
            rw [if_neg this]
          rw [List.head?_append, hdl_head, h1h]
          have : (l.take (i + 1)).head? = l.head? := by
            rw [List.head?_take, if_neg (by omega : ¬ (i + 1 = 0))]
          rw [this]
          obtain ⟨a, ha⟩ := List.exists_mem_of_ne_nil l hc
          cases hh : l.head? with
          | none => exact absurd (List.head?_eq_none_iff.mp hh) hc
          | some b => rfl
        · -- last
          rw [List.getLast?_append, h2l]
          have hdrop_last : (l.drop i).getLast? = l.getLast? := by
            rw [List.getLast?_eq_getElem?, List.getLast?_eq_getElem?,
              List.getElem?_drop, hdrop_len]
            congr 1
            omega
          rw [hdrop_last]
          cases hh : l.getLast? with
          | none =>
            exact absurd (List.getLast?_eq_none_iff.mp hh) hc
          | some b => rfl
        · intro _
          rw [hres_len]; omega
      · have hres : simplifyF (fuel + 1) l tol =
            [l.getD 0 default, l.getD (l.length - 1) default] := by
          rw [simplifyF, if_neg hlen]
          dsimp only
          rw [if_neg hbr]
        rw [hres]
        refine ⟨by simp, ?_, ?_, fun _ => by simp⟩
        · cases hh : l.head? with
          | none => exact absurd (List.head?_eq_none_iff.mp hh) hc
          | some b =>
            have hc0 : l[0]? = some b := by
              rw [← List.head?_eq_getElem?]; exact hh
            show some (l.getD 0 default) = some b
            rw [List.getD_eq_getElem?_getD, hc0]
            rfl
        · cases hh : l.getLast? with
          | none => exact absurd (List.getLast?_eq_none_iff.mp hh) hc
          | some b =>
            have hcl : l[l.length - 1]? = some b := by
              rw [← List.getLast?_eq_getElem?]; exact hh
            show some (l.getD (l.length - 1) default) = some b
            rw [List.getD_eq_getElem?_getD, hcl]
            rfl

/-- Monotonicity of the simplifier point count in the tolerance, at the
level of the fuelled recursion. -/
lemma simplifyF_length_mono : ∀ (fuel : ℕ) (l : List Point) (t t' : ℚ),
    0 ≤ t' → t' ≤ t →
    (simplifyF fuel l t).length ≤ (simplifyF fuel l t').length := by
  intro fuel
  induction fuel with
  | zero => intro l t t' _ _; exact le_refl _
  | succ fuel ih =>
    intro l t t' ht' htt
    by_cases hlen : l.length ≤ 2
    · rw [show simplifyF (fuel + 1) l t = l from by rw [simplifyF, if_pos hlen],
        show simplifyF (fuel + 1) l t' = l from by rw [simplifyF, if_pos hlen]]
    · have hlen3 : 3 ≤ l.length := by omega
      by_cases hbr' : t' < (maxDistIndex l).1
      · have hpos : 0 < (maxDistIndex l).1 := lt_of_le_of_lt ht' hbr'
        obtain ⟨hi1, hi2⟩ := maxDistIndex_bounds l hpos
        have hres' : simplifyF (fuel + 1) l t' =
            (simplifyF fuel (l.take ((maxDistIndex l).2 + 1)) t').dropLast
              ++ simplifyF fuel (l.drop (maxDistIndex l).2) t' := by
          rw [simplifyF, if_neg hlen]
          dsimp only
          rw [if_pos hbr']
        by_cases hbr : t < (maxDistIndex l).1
        · have hres : simplifyF (fuel + 1) l t =
              (simplifyF fuel (l.take ((maxDistIndex l).2 + 1)) t).dropLast
                ++ simplifyF fuel (l.drop (maxDistIndex l).2) t := by
            rw [simplifyF, if_neg hlen]
            dsimp only
            rw [if_pos hbr]
          rw [hres, hres']
          rw [List.length_append, List.length_append,
            List.length_dropLast, List.length_dropLast]
          have m1 := ih (l.take ((maxDistIndex l).2 + 1)) t t' ht' htt
          have m2 := ih (l.drop ((maxDistIndex l).2)) t t' ht' htt
          omega
        · -- t collapses, t' recurses: 2 ≤ length of the t' result
          have hres : simplifyF (fuel + 1) l t =
              [l.getD 0 default, l.getD (l.length - 1) default] := by
            rw [simplifyF, if_neg hlen]
            dsimp only
            rw [if_neg hbr]
          rw [hres, hres']
          have hdrop_ne : l.drop (maxDistIndex l).2 ≠ [] := by
            apply List.length_pos.mp
            rw [List.length_drop]
            omega
          obtain ⟨h2ne, _, _, h2len⟩ := simplifyF_spec fuel
            (l.drop (maxDistIndex l).2) t' ht' hdrop_ne
          have h2len2 : 2 ≤ (simplifyF fuel (l.drop (maxDistIndex l).2) t').length := by
            apply h2len
            rw [List.length_drop]
            omega
          rw [List.length_append]
          simp only [List.length_cons, List.length_nil]
          omega
      · -- both collapse
        have hbr : ¬ t < (maxDistIndex l).1 := fun h =>
          hbr' (lt_of_le_of_lt htt h)
        rw [show simplifyF (fuel + 1) l t =
              [l.getD 0 default, l.getD (l.length - 1) default] from by
            rw [simplifyF, if_neg hlen]; dsimp only; rw [if_neg hbr],
          show simplifyF (fuel + 1) l t' =
              [l.getD 0 default, l.getD (l.length - 1) default] from by
            rw [simplifyF, if_neg hlen]; dsimp only; rw [if_neg hbr']]

/-- With squared tolerance `0`, the recursion is the identity on every
contour on which it never meets a zero maximal deviation. -/
lemma simplifyF_zero_id : ∀ (fuel : ℕ) (l : List Point),
    dpPositiveF fuel l = true → simplifyF fuel l 0 = l := by
  intro fuel
  induction fuel with
  | zero => intro l _; rfl
  | succ fuel ih =>
    intro l hdp
    by_cases hlen : l.length ≤ 2
    · rw [simplifyF, if_pos hlen]
    · rw [dpPositiveF, if_neg hlen] at hdp
      dsimp only at hdp
      rw [Bool.and_assoc, Bool.and_eq_true, Bool.and_eq_true,
        decide_eq_true_eq] at hdp
      obtain ⟨hpos, hdp1, hdp2⟩ := hdp
      obtain ⟨hi1, hi2⟩ := maxDistIndex_bounds l hpos
      rw [simplifyF, if_neg hlen]
      dsimp only
      rw [if_pos hpos, ih _ hdp1, ih _ hdp2]
      have htl : (l.take ((maxDistIndex l).2 + 1)).dropLast =
          l.take (maxDistIndex l).2 := by
        rw [List.dropLast_eq_take, List.take_take, List.length_take]
        congr 1
        omega
      rw [htl, List.take_append_drop]

/-! ### Claim theorems for the PathSimplifier -/

/-- C1 (counterexample): `simplifyContour` with tolerance 0 is *not* the
identity on every contour with at least 3 points: three collinear points
are collapsed to the two endpoints, because a maximal deviation of exactly
0 is not strictly greater than the tolerance 0 and the whole segment is
collapsed. -/
theorem simplifyContour_tol_zero_not_id :
    3 ≤ ([⟨0, 0⟩, ⟨1, 0⟩, ⟨2, 0⟩] : List Point).length ∧
    simplifyContour [⟨0, 0⟩, ⟨1, 0⟩, ⟨2, 0⟩] 0 ≠ [⟨0, 0⟩, ⟨1, 0⟩, ⟨2, 0⟩] := by
  constructor
  · decide
  · with_unfolding_all decide

/-- C1 (amended): simplifying with tolerance 0 returns the original
contour unchanged *provided* the Douglas-Peucker recursion never meets a
sub-segment (of more than two points) whose interior points all lie at
perpendicular distance exactly 0 from its chord (`dpPositive`); contours
with a point exactly on the chord are collapsed instead (see the
counterexample). -/
theorem simplifyContour_tol_zero_id (contour : List Point)
    (h : dpPositive contour = true) :
    simplifyContour contour 0 = contour :=
  simplifyF_zero_id contour.length contour h

/-- Witness for the amended C1 on a concrete strictly-deviating contour. -/
theorem simplifyContour_tol_zero_id_witness :
    simplifyContour [⟨0, 0⟩, ⟨1, 1⟩, ⟨2, 0⟩] 0 = [⟨0, 0⟩, ⟨1, 1⟩, ⟨2, 0⟩] :=
  simplifyContour_tol_zero_id [⟨0, 0⟩, ⟨1, 1⟩, ⟨2, 0⟩] (by with_unfolding_all decide)

/-- C8: the simplifier's output point count is antitone in the tolerance:
for squared tolerances `t ≥ t' ≥ 0`, simplifying with `t` yields at most
as many points as simplifying with `t'`.  (Tolerances are compared through
their squares, and squaring is a monotone bijection of the nonnegative
reals, so this is exactly monotonicity in the tolerance itself.) -/
theorem simplifyContour_count_monotone (contour : List Point) (t t' : ℚ)
    (ht' : 0 ≤ t') (htt : t' ≤ t) :
    (simplifyContour contour t).length ≤ (simplifyContour contour t').length :=
  simplifyF_length_mono contour.length contour t t' ht' htt

/-- Witness for C8 at a concrete contour and tolerance pair. -/
theorem simplifyContour_count_monotone_witness :
    (simplifyContour [⟨0, 0⟩, ⟨1, 1⟩, ⟨2, 0⟩, ⟨3, 1⟩, ⟨4, 0⟩] 2).length ≤
    (simplifyContour [⟨0, 0⟩, ⟨1, 1⟩, ⟨2, 0⟩, ⟨3, 1⟩, ⟨4, 0⟩] (1/2)).length :=
  simplifyContour_count_monotone [⟨0, 0⟩, ⟨1, 1⟩, ⟨2, 0⟩, ⟨3, 1⟩, ⟨4, 0⟩] 2 (1/2)
    (by norm_num) (by norm_num)

/-- C10: for every nonempty contour and nonnegative tolerance,
`simplifyContour` returns a nonempty contour whose first point is the
input's first point and whose last point is the input's last point. -/
theorem simplifyContour_preserves_endpoints (contour : List Point) (tol : ℚ)
    (hc : contour ≠ []) (ht : 0 ≤ tol) :
    simplifyContour contour tol ≠ [] ∧
    (simplifyContour contour tol).head? = contour.head? ∧
    (simplifyContour contour tol).getLast? = contour.getLast? := by
  obtain ⟨h1, h2, h3, _⟩ := simplifyF_spec contour.length contour tol ht hc
  exact ⟨h1, h2, h3⟩

/-- Witness for C10 at a concrete contour. -/
theorem simplifyContour_preserves_endpoints_witness :
    simplifyContour [⟨0, 0⟩, ⟨1, 0⟩, ⟨2, 0⟩, ⟨2, 2⟩] 1 ≠ [] ∧
    (simplifyContour [⟨0, 0⟩, ⟨1, 0⟩, ⟨2, 0⟩, ⟨2, 2⟩] 1).head? =
      ([⟨0, 0⟩, ⟨1, 0⟩, ⟨2, 0⟩, ⟨2, 2⟩] : List Point).head? ∧
    (simplifyContour [⟨0, 0⟩, ⟨1, 0⟩, ⟨2, 0⟩, ⟨2, 2⟩] 1).getLast? =
      ([⟨0, 0⟩, ⟨1, 0⟩, ⟨2, 0⟩, ⟨2, 2⟩] : List Point).getLast? :=
  simplifyContour_preserves_endpoints [⟨0, 0⟩, ⟨1, 0⟩, ⟨2, 0⟩, ⟨2, 2⟩] 1
    (by decide) (by norm_num)

/-! ### BitmapPreprocessor: `preprocessBitmap` (svgConverter.js lines
112-140) and `preprocessBitmapAdvanced` (lines 148-204)

`ImageData` is embedded as `PixelBuffer`; the flat RGBA `data` array is a
function from flat byte indices, with the byte bound `≤ 255` carried as a
hypothesis where needed.  The produced `Uint8Array` bitmaps are embedded
as the per-pixel value at coordinates `(x, y)`, each of which the code
computes independently of the others. -/

/-- An `ImageData`-like pixel buffer: dimensions plus flat RGBA data. -/
structure PixelBuffer where
  width : ℕ
  height : ℕ
  data : ℕ → ℕ

/-- The conversion options consumed by the two preprocessing functions. -/
structure ConvOptions where
  threshold : ℚ
  detailLevel : ℕ

/-- `options.threshold || 128`: JavaScript `||` substitutes the default
for every falsy value, so a supplied threshold of `0` is replaced by
`128`. -/
def effThreshold (o : ConvOptions) : ℚ :=
  if o.threshold = 0 then 128 else o.threshold

/-- `options.detailLevel || 5`, with the same falsy-zero behaviour. -/
def effDetailLevel (o : ConvOptions) : ℕ :=
  if o.detailLevel = 0 then 5 else o.detailLevel

/-- `0.299 * r + 0.587 * g + 0.114 * b` with the decimal weights read as
exact rationals. -/
def luminance (r g b : ℕ) : ℚ :=
  (299 / 1000) * r + (587 / 1000) * g + (114 / 1000) * b

/-- JavaScript `Math.round`: round half away from zero; for the
nonnegative arguments arising here this is `⌊q + 1/2⌋`. -/
def jsRound (q : ℚ) : ℤ := ⌊q + 1 / 2⌋

/-- `preprocessBitmap` (lines 112-140), as the value stored at pixel
`(x, y)`: fully transparent pixels are background, otherwise the pixel is
foreground exactly when its luminance is strictly below the (defaulted)
global threshold. -/
def preprocessBitmap (img : PixelBuffer) (o : ConvOptions) (x y : ℕ) : ℕ :=
  let i := (y * img.width + x) * 4
  if img.data (i + 3) = 0 then 0
  else if luminance (img.data i) (img.data (i + 1)) (img.data (i + 2)) <
      effThreshold o then 1
  else 0

/-- Step 1 of `preprocessBitmapAdvanced` (lines 158-173): the grayscale
value stored at `(x, y)`: `255` for fully transparent pixels, otherwise
the rounded luminance. -/
def grayscaleAt (img : PixelBuffer) (x y : ℕ) : ℤ :=
  let i := (y * img.width + x) * 4
  if img.data (i + 3) = 0 then 255
  else jsRound (luminance (img.data i) (img.data (i + 1)) (img.data (i + 2)))

/-- The window offsets `-blockSize .. blockSize` scanned by the adaptive
threshold loops. -/
def windowOffsets (blockSize : ℕ) : List ℤ :=
  (List.range (2 * blockSize + 1)).map (fun k => (k : ℤ) - blockSize)

/-- The in-bounds window coordinates around `(x, y)` accumulated by the
nested `dy`/`dx` loops of the adaptive threshold (lines 183-193); their
count is `count` and their grayscale values are summed. -/
def windowCoords (img : PixelBuffer) (blockSize x y : ℕ) : List (ℕ × ℕ) :=
  (windowOffsets blockSize).flatMap (fun dy =>
    (windowOffsets blockSize).filterMap (fun dx =>
      let nx := (x : ℤ) + dx
      let ny := (y : ℤ) + dy
      if 0 ≤ nx ∧ nx < img.width ∧ 0 ≤ ny ∧ ny < img.height then
        some (nx.toNat, ny.toNat)
      else none))

/-- `sum / count` of the window (line 195); the window always contains the
in-bounds pixel `(x, y)` itself, so `count > 0` whenever `(x, y)` is in
bounds. -/
def localAvg (img : PixelBuffer) (blockSize x y : ℕ) : ℚ :=
  ((windowCoords img blockSize x y).map
    (fun p => ((grayscaleAt img p.1 p.2 : ℚ)))).sum /
    (windowCoords img blockSize x y).length

/-- `preprocessBitmapAdvanced` (lines 148-204), as the value stored at
pixel `(x, y)`: adaptive threshold with `blockSize = 11 - detailLevel` and
bias `10 - detailLevel`. -/
def preprocessBitmapAdvanced (img : PixelBuffer) (o : ConvOptions) (x y : ℕ) : ℕ :=
  let d := effDetailLevel o
  let blockSize := 11 - d
  if (grayscaleAt img x y : ℚ) < localAvg img blockSize x y - (10 - (d : ℚ)) then 1
  else 0

/-- Every stored grayscale value lies in `[0, 255]` when the pixel data
are bytes. -/
lemma grayscaleAt_mem (img : PixelBuffer) (hb : ∀ i, img.data i ≤ 255)
    (x y : ℕ) : 0 ≤ grayscaleAt img x y ∧ grayscaleAt img x y ≤ 255 := by
  unfold grayscaleAt
  dsimp only
  split
  · norm_num
  · unfold jsRound
    constructor
    · apply Int.floor_nonneg.mpr
      have : (0 : ℚ) ≤ luminance (img.data ((y * img.width + x) * 4))
          (img.data ((y * img.width + x) * 4 + 1))
          (img.data ((y * img.width + x) * 4 + 2)) := by
        unfold luminance
        positivity
      linarith
    · have hlum : luminance (img.data ((y * img.width + x) * 4))
          (img.data ((y * img.width + x) * 4 + 1))
          (img.data ((y * img.width + x) * 4 + 2)) ≤ 255 := by
        unfold luminance
        have h1 : (img.data ((y * img.width + x) * 4) : ℚ) ≤ 255 := by
          exact_mod_cast hb _
        have h2 : (img.data ((y * img.width + x) * 4 + 1) : ℚ) ≤ 255 := by
          exact_mod_cast hb _
        have h3 : (img.data ((y * img.width + x) * 4 + 2) : ℚ) ≤ 255 := by
          exact_mod_cast hb _
        linarith
      have : (⌊luminance (img.data ((y * img.width + x) * 4))
          (img.data ((y * img.width + x) * 4 + 1))
          (img.data ((y * img.width + x) * 4 + 2)) + 1 / 2⌋ : ℤ) ≤ ⌊(255 : ℚ) + 1 / 2⌋ := by
        apply Int.floor_le_floor
        linarith
      have h255 : (⌊(255 : ℚ) + 1 / 2⌋ : ℤ) = 255 := by
        norm_num
      omega

/-- The local window average is at most 255 when the pixel data are
bytes. -/
lemma localAvg_le (img : PixelBuffer) (hb : ∀ i, img.data i ≤ 255)
    (blockSize x y : ℕ) : localAvg img blockSize x y ≤ 255 := by
  unfold localAvg
  set l := (windowCoords img blockSize x y).map
    (fun p => ((grayscaleAt img p.1 p.2 : ℚ))) with hl
  have hlen : (windowCoords img blockSize x y).length = l.length := by
    rw [hl, List.length_map]
  rw [hlen]
  rcases Nat.eq_zero_or_pos l.length with hz | hpos
  · rw [hz]
    norm_num
  · have hsum : l.sum ≤ (l.length : ℚ) * 255 := by
      have : ∀ q ∈ l, q ≤ 255 := by
        intro q hq
        rw [hl] at hq
        obtain ⟨p, _, hp⟩ := List.mem_map.mp hq
        rw [← hp]
        have := (grayscaleAt_mem img hb p.1 p.2).2
        exact_mod_cast this
      calc l.sum ≤ l.length • (255 : ℚ) := List.sum_le_card_nsmul l 255 this
        _ = (l.length : ℚ) * 255 := by rw [nsmul_eq_mul]
    rw [div_le_iff₀ (by exact_mod_cast hpos)]
    linarith

/-! ### Claim theorems for the BitmapPreprocessor -/

/-- C7: a pixel with alpha component 0 is classified as background (0) by
both the simple and the adaptive preprocessing mode, regardless of its
R,G,B values, for every threshold and every detail level in the
documented range (the detail-level slider is documented as `1..10`; the
hypothesis also admits the falsy value `0`, which the code replaces by
the default `5`). -/
theorem alpha_zero_is_background (img : PixelBuffer) (o : ConvOptions) (x y : ℕ)
    (hb : ∀ i, img.data i ≤ 255)
    (ha : img.data ((y * img.width + x) * 4 + 3) = 0)
    (hd : o.detailLevel ≤ 10) :
    preprocessBitmap img o x y = 0 ∧ preprocessBitmapAdvanced img o x y = 0 := by
  constructor
  · unfold preprocessBitmap
    dsimp only
    rw [if_pos ha]
  · unfold preprocessBitmapAdvanced
    dsimp only
    rw [if_neg]
    intro hlt
    have hg : grayscaleAt img x y = 255 := by
      unfold grayscaleAt
      dsimp only
      rw [if_pos ha]
    have havg : localAvg img (11 - effDetailLevel o) x y ≤ 255 :=
      localAvg_le img hb _ x y
    have hd' : effDetailLevel o ≤ 10 := by
      unfold effDetailLevel
      split <;> omega
    have hbias : (0 : ℚ) ≤ 10 - (effDetailLevel o : ℚ) := by
      have : (effDetailLevel o : ℚ) ≤ 10 := by exact_mod_cast hd'
      linarith
    rw [hg] at hlt
    push_cast at hlt
    linarith

/-- Witness for C7 on a concrete one-pixel transparent buffer. -/
theorem alpha_zero_is_background_witness :
    preprocessBitmap ⟨1, 1, fun i => if i = 3 then 0 else 255⟩ ⟨128, 5⟩ 0 0 = 0 ∧
    preprocessBitmapAdvanced ⟨1, 1, fun i => if i = 3 then 0 else 255⟩ ⟨128, 5⟩ 0 0 = 0 :=
  alpha_zero_is_background ⟨1, 1, fun i => if i = 3 then 0 else 255⟩ ⟨128, 5⟩ 0 0
    (fun i => by dsimp only; split <;> omega) (by norm_num) (by norm_num)

/-- C9 (counterexample): the claimed rule "foreground iff luminance <
global threshold" fails at the documented threshold value 0: the
options-defaulting `options.threshold || 128` treats 0 as falsy and
replaces it by 128, so an opaque gray pixel of luminance 100 is marked
foreground even though `100 < 0` is false. -/
theorem simple_threshold_zero_counterexample :
    preprocessBitmap ⟨1, 1, fun i => if i = 3 then 255 else 100⟩ ⟨0, 5⟩ 0 0 = 1 ∧
    ¬ luminance 100 100 100 < (0 : ℚ) := by
  constructor
  · with_unfolding_all decide
  · with_unfolding_all decide

/-- C9 (amended): in simple mode, for every pixel with nonzero alpha and
every global threshold in `[1, 255]`, the pixel is marked foreground iff
its luminance `0.299·R + 0.587·G + 0.114·B` is strictly below the
threshold.  (At the remaining documented value 0 the code substitutes the
default 128, see the counterexample.) -/
theorem simple_threshold_rule (img : PixelBuffer) (o : ConvOptions) (x y : ℕ)
    (ha : img.data ((y * img.width + x) * 4 + 3) ≠ 0)
    (ht1 : 1 ≤ o.threshold) (_ht2 : o.threshold ≤ 255) :
    (preprocessBitmap img o x y = 1 ↔
      luminance (img.data ((y * img.width + x) * 4))
        (img.data ((y * img.width + x) * 4 + 1))
        (img.data ((y * img.width + x) * 4 + 2)) < o.threshold) := by
  have heff : effThreshold o = o.threshold := by
    unfold effThreshold
    rw [if_neg]
    intro h0
    rw [h0] at ht1
    norm_num at ht1
  unfold preprocessBitmap
  dsimp only
  rw [if_neg ha, heff]
  split
  case isTrue h => simpa using h
  case isFalse h => simpa using h

/-- Witness for the amended C9 on a concrete opaque pixel. -/
theorem simple_threshold_rule_witness :
    preprocessBitmap ⟨1, 1, fun i => if i = 3 then 255 else 100⟩ ⟨128, 5⟩ 0 0 = 1 ↔
    luminance 100 100 100 < (128 : ℚ) := by
  have h := simple_threshold_rule ⟨1, 1, fun i => if i = 3 then 255 else 100⟩
    ⟨128, 5⟩ 0 0 (by norm_num) (by norm_num) (by norm_num)
  simpa using h

/-! ### PathSmoother: `contourToSvgPath` (svgConverter.js lines 290-341)

The SVG path-data string is embedded as a list of drawing commands.  In
the smoothing branch the code emits, at each sufficiently long corner, a
`L cp1 Q p1 cp2` pair whose control points `p1 ∓ radius·v/‖v‖` involve
real square roots; the embedding records that pair as one
`roundedCorner` command carrying the exact data `(p0, p1, p2, radius)`
that determines those control points.  The branch condition
`v1Len < 1 || v2Len < 1` is embedded through squared lengths. -/

/-- One SVG path-data command. -/
inductive PathCmd where
  | moveTo (x y : ℚ)
  | lineTo (x y : ℚ)
  | roundedCorner (p0 p1 p2 : Point) (radius : ℚ)
  | closePath
deriving DecidableEq, Repr

/-- Whether a command draws a curve (the `Q` part of a rounded corner). -/
def isCurveCmd : PathCmd → Bool
  | PathCmd.roundedCorner _ _ _ _ => true
  | _ => false

/-- `contourToSvgPath(contour, smoothing)` (lines 290-341): empty input
yields the empty path; otherwise a move-to the first point, then per
`i = 1 .. length-1` either a straight line-to (smoothing 0, or a corner
with an adjacent edge shorter than 1) or a rounded corner, then an
explicit close. -/
def contourToSvgPath (contour : List Point) (smoothing : ℚ) : List PathCmd :=
  if contour.length = 0 then []
  else
    let p₀ := contour.getD 0 default
    let body :=
      if smoothing = 0 then
        (List.range (contour.length - 1)).map (fun j =>
          let p := contour.getD (j + 1) default
          PathCmd.lineTo p.x p.y)
      else
        let radius := smoothing * (1 / 2)
        (List.range (contour.length - 1)).map (fun j =>
          let i := j + 1
          let p0 := contour.getD ((i - 1 + contour.length) % contour.length) default
          let p1 := contour.getD i default
          let p2 := contour.getD ((i + 1) % contour.length) default
          let v1LenSq := (p1.x - p0.x) * (p1.x - p0.x) + (p1.y - p0.y) * (p1.y - p0.y)
          let v2LenSq := (p2.x - p1.x) * (p2.x - p1.x) + (p2.y - p1.y) * (p2.y - p1.y)
          if v1LenSq < 1 ∨ v2LenSq < 1 then PathCmd.lineTo p1.x p1.y
          else PathCmd.roundedCorner p0 p1 p2 radius)
    PathCmd.moveTo p₀.x p₀.y :: (body ++ [PathCmd.closePath])

/-! ### Claim theorem for the PathSmoother -/

/-- C6: for every nonempty contour, smoothing strength 0 produces a path
that starts with a move-to the first point, contains exactly one straight
line-to per remaining point (in order), is explicitly closed, and
contains no curve command. -/
theorem smoothing_zero_straight_path (contour : List Point) (hc : contour ≠ []) :
    contourToSvgPath contour 0 =
      PathCmd.moveTo (contour.getD 0 default).x (contour.getD 0 default).y ::
        ((contour.drop 1).map (fun p => PathCmd.lineTo p.x p.y) ++ [PathCmd.closePath]) ∧
    ∀ cmd ∈ contourToSvgPath contour 0, isCurveCmd cmd = false := by
  have hlen : ¬ contour.length = 0 := by
    intro h
    exact hc (List.length_eq_zero.mp h)
  have hbody : (List.range (contour.length - 1)).map (fun j =>
      let p := contour.getD (j + 1) default
      PathCmd.lineTo p.x p.y) =
      (contour.drop 1).map (fun p => PathCmd.lineTo p.x p.y) := by
    apply List.ext_getElem
    · rw [List.length_map, List.length_range, List.length_map, List.length_drop]
    · intro k hk1 hk2
      rw [List.length_map, List.length_range] at hk1
      simp only [List.getElem_map, List.getElem_range, List.getElem_drop]
      have hidx : 1 + k < contour.length := by omega
      have hgd : contour.getD (k + 1) default = contour[1 + k] := by
        rw [List.getD_eq_getElem?_getD, show k + 1 = 1 + k from by omega,
          List.getElem?_eq_getElem hidx]
        rfl
      rw [hgd]
  have hmain : contourToSvgPath contour 0 =
      PathCmd.moveTo (contour.getD 0 default).x (contour.getD 0 default).y ::
        ((contour.drop 1).map (fun p => PathCmd.lineTo p.x p.y) ++ [PathCmd.closePath]) := by
    unfold contourToSvgPath
    rw [if_neg hlen]
    dsimp only
    rw [if_pos rfl, hbody]
  refine ⟨hmain, ?_⟩
  intro cmd hcmd
  rw [hmain] at hcmd
  rcases List.mem_cons.mp hcmd with h | h
  · rw [h]; rfl
  · rcases List.mem_append.mp h with h' | h'
    · obtain ⟨p, _, hp⟩ := List.mem_map.mp h'
      rw [← hp]; rfl
    · rcases List.mem_singleton.mp h' with h''
      rw [h'']; rfl

/-- Witness for C6 on a concrete triangle contour. -/
theorem smoothing_zero_straight_path_witness :
    contourToSvgPath [⟨0, 0⟩, ⟨3, 0⟩, ⟨0, 4⟩] 0 =
      PathCmd.moveTo (([⟨0, 0⟩, ⟨3, 0⟩, ⟨0, 4⟩] : List Point).getD 0 default).x
          (([⟨0, 0⟩, ⟨3, 0⟩, ⟨0, 4⟩] : List Point).getD 0 default).y ::
        ((([⟨0, 0⟩, ⟨3, 0⟩, ⟨0, 4⟩] : List Point).drop 1).map
            (fun p => PathCmd.lineTo p.x p.y) ++ [PathCmd.closePath]) ∧
    ∀ cmd ∈ contourToSvgPath [⟨0, 0⟩, ⟨3, 0⟩, ⟨0, 4⟩] 0, isCurveCmd cmd = false :=
  smoothing_zero_straight_path [⟨0, 0⟩, ⟨3, 0⟩, ⟨0, 4⟩] (by decide)

/-! ### LayoutEngine: `spinnerGenerator.js`

`generateSpinnerSvg` builds a DOM `<svg>` aggregating the outline, the
placed frame copies and the bearing group.  The embedding records the
geometric data driving that construction: the frame placements computed
by `calculateFramePositions` and the per-slot source-frame indices
`i % svgFrames.length` (line 105).  A placement's code fields are
`x = cos(angle)·radius`, `y = sin(angle)·radius`,
`angle·180/π` degrees and `scale = 2·radius·sin(π/count)/50`
(lines 149-161) — all determined by the exact rational pair recorded
here (the angle in degrees, `i·360/count`, is itself exact). -/

/-- The data determining one frame placement of
`calculateFramePositions`. -/
structure FramePlacement where
  angleDeg : ℚ
  radius : ℚ
deriving DecidableEq, Repr

/-- The spinner options destructured (with these defaults) at
`generateSpinnerSvg` lines 68-76. -/
structure SpinnerOptions where
  diameter : ℚ := 100
  frameCount : ℕ := 8
  spacing : ℚ := 5
  bearingDiameter : ℚ := 22
  bearingType : String := "standard"
  outlineThickness : ℚ := 3
  outlineStyle : String := "simple"
deriving DecidableEq, Repr

/-- An input SVG frame, treated by the layout as an opaque document to be
cloned; nothing in the layout inspects it beyond cloning, so a token
suffices. -/
structure SvgFrame where
  id : ℕ
deriving DecidableEq, Repr

/-- The placement radius `(diameter - bearingDiameter) / 2 - spacing`
computed (without any feasibility check) at `calculateFramePositions`
line 141. -/
def placementRadius (o : SpinnerOptions) : ℚ :=
  (o.diameter - o.bearingDiameter) / 2 - o.spacing

/-- `calculateFramePositions(count, diameter, bearingDiameter, spacing)`
(lines 137-165): `count` placements at equal angular steps, all at the
computed radius. -/
def calculateFramePositions (count : ℕ) (diameter bearingDiameter spacing : ℚ) :
    List FramePlacement :=
  let radius := (diameter - bearingDiameter) / 2 - spacing
  (List.range count).map (fun (i : ℕ) => ⟨(i : ℚ) * 360 / count, radius⟩)

/-- The geometric content of the `<svg>` built by `generateSpinnerSvg`
(lines 66-127). -/
structure SpinnerSvg where
  positions : List FramePlacement
  frameIndices : List ℕ
  bearingDiameter : ℚ
  bearingType : String
deriving DecidableEq, Repr

/-- `generateSpinnerSvg` (lines 66-127): computes the frame positions and
places frame `i % svgFrames.length` at slot `i`; no feasibility check of
any kind is performed. -/
def generateSpinnerSvg (svgFrames : List SvgFrame) (o : SpinnerOptions) : SpinnerSvg :=
  { positions := calculateFramePositions o.frameCount o.diameter o.bearingDiameter o.spacing
    frameIndices := (List.range o.frameCount).map (fun i => i % svgFrames.length)
    bearingDiameter := o.bearingDiameter
    bearingType := o.bearingType }

/-- `generateSpinner` (lines 29-57): rejects with
`Error("No frames available")` — the surfaced input error — when the
frame list is empty, and otherwise resolves with the spinner built by
`generateSpinnerSvg`. -/
def generateSpinner (svgFrames : List SvgFrame) (o : SpinnerOptions) :
    Except String SpinnerSvg :=
  if svgFrames.length = 0 then Except.error "No frames available"
  else Except.ok (generateSpinnerSvg svgFrames o)

/-! ### Claim theorems for the LayoutEngine -/

/-- C5: for every options object, `generateSpinner` on an empty frame
list rejects with the input error "No frames available"; no spinner
design is produced. -/
theorem generateSpinner_empty_is_error (o : SpinnerOptions) :
    generateSpinner [] o = Except.error "No frames available" := rfl

/-- C3 (counterexample): with `diameter = 100`, `bearingDiameter = 100`,
`spacing = 5` the computed placement radius is `-5 < 0`, yet the layout
succeeds and produces a design — there is no `LayoutError` path in the
code. -/
theorem layout_infeasible_radius_counterexample :
    placementRadius ⟨100, 8, 5, 100, "standard", 3, "simple"⟩ < 0 ∧
    ∃ d, generateSpinner [⟨0⟩] ⟨100, 8, 5, 100, "standard", 3, "simple"⟩ =
      Except.ok d := by
  constructor
  · norm_num [placementRadius]
  · exact ⟨_, rfl⟩

/-- C3 (amended): the code never validates the placement radius: for
every nonempty frame list and every options object — including any with
`(diameter - bearingDiameter)/2 - spacing ≤ 0` — the layout succeeds,
producing `frameCount` placements all at the computed (possibly
non-positive) radius; no layout error exists. -/
theorem generateSpinner_no_radius_check (svgFrames : List SvgFrame)
    (o : SpinnerOptions) (h : svgFrames ≠ []) :
    generateSpinner svgFrames o = Except.ok (generateSpinnerSvg svgFrames o) ∧
    (generateSpinnerSvg svgFrames o).positions.length = o.frameCount ∧
    ∀ p ∈ (generateSpinnerSvg svgFrames o).positions,
      p.radius = placementRadius o := by
  refine ⟨?_, ?_, ?_⟩
  · unfold generateSpinner
    rw [if_neg]
    intro h0
    exact h (List.length_eq_zero.mp h0)
  · show (calculateFramePositions o.frameCount o.diameter o.bearingDiameter
        o.spacing).length = o.frameCount
    simp [calculateFramePositions]
  · intro p hp
    have hp' : p ∈ calculateFramePositions o.frameCount o.diameter
        o.bearingDiameter o.spacing := hp
    simp only [calculateFramePositions, List.mem_map, List.mem_range] at hp'
    obtain ⟨i, _, hi⟩ := hp'
    rw [← hi]
    rfl

/-- Witness for the amended C3 at a concrete infeasible options object. -/
theorem generateSpinner_no_radius_check_witness :
    generateSpinner [⟨1⟩] ⟨100, 4, 5, 100, "standard", 3, "simple"⟩ =
      Except.ok (generateSpinnerSvg [⟨1⟩] ⟨100, 4, 5, 100, "standard", 3, "simple"⟩) ∧
    (generateSpinnerSvg [⟨1⟩] ⟨100, 4, 5, 100, "standard", 3, "simple"⟩).positions.length = 4 ∧
    ∀ p ∈ (generateSpinnerSvg [⟨1⟩]
        ⟨100, 4, 5, 100, "standard", 3, "simple"⟩).positions,
      p.radius = placementRadius ⟨100, 4, 5, 100, "standard", 3, "simple"⟩ :=
  generateSpinner_no_radius_check [⟨1⟩] ⟨100, 4, 5, 100, "standard", 3, "simple"⟩
    (by decide)

/-! ### ContourTracer: `findContours` (svgConverter.js lines 213-282)

The bitmap is the flat `Uint8Array` as a function from indices; visited
marks are a function from indices to `Bool`.  Contour points here always
hold integer pixel coordinates, embedded as `ℕ × ℕ`.  The `while` loop
(lines 240-272) runs at most `maxSteps = width * height` completed
iterations; it is embedded with that number as fuel, and the trace
reports whether the budget was exhausted.  The inner direction search
(lines 248-262) accepts any in-bounds foreground neighbour — it does
*not* consult the visited marks. -/

/-- Direction vectors, right/down/left/up (lines 221-222). -/
def dxs : List ℤ := [1, 0, -1, 0]

/-- See `dxs`. -/
def dys : List ℤ := [0, 1, 0, -1]

/-- One attempt of the direction search (lines 249-258): direction
`d % 4`, succeeding when the neighbour is in bounds and foreground,
returning the direction used and the neighbour's coordinates. -/
def tryDir (bm : ℕ → ℕ) (w h cx cy d : ℕ) : Option (ℕ × ℕ × ℕ) :=
  let nx := (cx : ℤ) + dxs.getD (d % 4) 0
  let ny := (cy : ℤ) + dys.getD (d % 4) 0
  if 0 ≤ nx ∧ nx < w ∧ 0 ≤ ny ∧ ny < h ∧ bm (ny.toNat * w + nx.toNat) = 1 then
    some (d % 4, nx.toNat, ny.toNat)
  else none

/-- The four-attempt search of lines 248-262: directions `dir`,
`dir + 1`, `dir + 2`, `dir + 3` (mod 4), first success wins. -/
def searchDir (bm : ℕ → ℕ) (w h cx cy dir : ℕ) : Option (ℕ × ℕ × ℕ) :=
  match tryDir bm w h cx cy dir with
  | some r => some r
  | none =>
    match tryDir bm w h cx cy (dir + 1) with
    | some r => some r
    | none =>
      match tryDir bm w h cx cy (dir + 2) with
      | some r => some r
      | none => tryDir bm w h cx cy (dir + 3)

/-- Result of one contour trace: the contour in push order, the updated
visited marks, and whether the step budget was exhausted. -/
structure TraceResult where
  contour : List (ℕ × ℕ)
  visited : ℕ → Bool
  budgetHit : Bool

/-- The trace `while` loop (lines 240-272) with the remaining step budget
as fuel.  Each iteration marks the current pixel visited and pushes it,
searches for a neighbour, stops when none is found or when the trace
returns to the seed `(sx, sy)` (which is `contour[0]`, the first pushed
point) with more than 2 points already pushed, and otherwise moves there
turning left (`(d + 3) % 4`).  Fuel exhaustion is exactly the loop's
`count < maxSteps` condition failing. -/
def traceLoop (bm : ℕ → ℕ) (w h sx sy : ℕ) :
    ℕ → ℕ → ℕ → ℕ → (ℕ → Bool) → List (ℕ × ℕ) → TraceResult
  | 0, _, _, _, vis, rev => ⟨rev.reverse, vis, true⟩
  | fuel + 1, cx, cy, dir, vis, rev =>
    let vis' := fun j => if j = cy * w + cx then true else vis j
    let rev' := (cx, cy) :: rev
    match searchDir bm w h cx cy dir with
    | none => ⟨rev'.reverse, vis', false⟩
    | some (d, nx, ny) =>
      if 2 < rev'.length ∧ nx = sx ∧ ny = sy then ⟨rev'.reverse, vis', false⟩
      else traceLoop bm w h sx sy fuel nx ny ((d + 3) % 4) vis' rev'

/-- One full contour trace from seed `(x, y)` (lines 230-272): initial
direction 0 (right) and budget `width * height`. -/
def traceContour (bm : ℕ → ℕ) (w h x y : ℕ) (vis : ℕ → Bool) : TraceResult :=
  traceLoop bm w h x y (w * h) x y 0 vis []

/-- The row-major scan order of the outer loops (lines 225-226). -/
def scanOrder (w h : ℕ) : List (ℕ × ℕ) :=
  (List.range h).flatMap (fun y => (List.range w).map (fun x => (x, y)))

/-- The outer scan (lines 225-279): each unvisited foreground pixel seeds
a trace; the traced contour is appended to the output exactly when it has
more than 2 points (line 274), and scanning continues with the updated
visited marks either way. -/
def findContoursAux (bm : ℕ → ℕ) (w h : ℕ) :
    List (ℕ × ℕ) → (ℕ → Bool) → List (List (ℕ × ℕ)) → List (List (ℕ × ℕ))
  | [], _, acc => acc
  | (x, y) :: rest, vis, acc =>
    if bm (y * w + x) = 1 ∧ vis (y * w + x) = false then
      let r := traceContour bm w h x y vis
      if 2 < r.contour.length then
        findContoursAux bm w h rest r.visited (acc ++ [r.contour])
      else
        findContoursAux bm w h rest r.visited acc
    else
      findContoursAux bm w h rest vis acc

/-- `findContours(bitmap, width, height)` (lines 213-282). -/
def findContours (bm : ℕ → ℕ) (w h : ℕ) : List (List (ℕ × ℕ)) :=
  findContoursAux bm w h (scanOrder w h) (fun _ => false) []

/-! ### Lemmas about the tracer -/

/-- `tryDir` only depends on its direction argument modulo 4. -/
lemma tryDir_mod (bm : ℕ → ℕ) (w h cx cy d : ℕ) :
    tryDir bm w h cx cy d = tryDir bm w h cx cy (d % 4) := by
  unfold tryDir
  rw [Nat.mod_mod_of_dvd d (dvd_refl 4)]

/-- A successful `tryDir` lands on an in-bounds foreground pixel. -/
lemma tryDir_eq_some (bm : ℕ → ℕ) (w h cx cy d : ℕ) (r : ℕ × ℕ × ℕ)
    (hr : tryDir bm w h cx cy d = some r) :
    r.2.1 < w ∧ r.2.2 < h ∧ bm (r.2.2 * w + r.2.1) = 1 := by
  unfold tryDir at hr
  dsimp only at hr
  split at hr
  case isTrue hcond =>
    obtain ⟨h1, h2, h3, h4, h5⟩ := hcond
    cases hr
    dsimp only
    refine ⟨by omega, by omega, h5⟩
  case isFalse => exact absurd hr (by simp)

/-- A successful search result comes from one of the `tryDir` attempts. -/
lemma searchDir_eq_some (bm : ℕ → ℕ) (w h cx cy dir : ℕ) (r : ℕ × ℕ × ℕ)
    (hr : searchDir bm w h cx cy dir = some r) :
    ∃ d, tryDir bm w h cx cy d = some r := by
  unfold searchDir at hr
  cases h0 : tryDir bm w h cx cy dir with
  | some r0 => rw [h0] at hr; exact ⟨dir, h0.trans hr⟩
  | none =>
    rw [h0] at hr
    cases h1 : tryDir bm w h cx cy (dir + 1) with
    | some r1 => rw [h1] at hr; exact ⟨dir + 1, h1.trans hr⟩
    | none =>
      rw [h1] at hr
      cases h2 : tryDir bm w h cx cy (dir + 2) with
      | some r2 => rw [h2] at hr; exact ⟨dir + 2, h2.trans hr⟩
      | none =>
        rw [h2] at hr
        exact ⟨dir + 3, hr⟩

/-- If some direction (below 4) succeeds, the four-attempt search
succeeds, whatever its start direction: the four attempted directions
cover all residues modulo 4. -/
lemma searchDir_isSome (bm : ℕ → ℕ) (w h cx cy dir : ℕ)
    (hex : ∃ d, d < 4 ∧ (tryDir bm w h cx cy d).isSome) :
    (searchDir bm w h cx cy dir).isSome := by
  obtain ⟨d, hd4, hds⟩ := hex
  unfold searchDir
  cases h0 : tryDir bm w h cx cy dir with
  | some r0 => rfl
  | none =>
    cases h1 : tryDir bm w h cx cy (dir + 1) with
    | some r1 => rfl
    | none =>
      cases h2 : tryDir bm w h cx cy (dir + 2) with
      | some r2 => rfl
      | none =>
        cases h3 : tryDir bm w h cx cy (dir + 3) with
        | some r3 => rfl
        | none =>
          exfalso
          obtain ⟨k, hk4, hkd⟩ : ∃ k, k < 4 ∧ (dir + k) % 4 = d :=
            ⟨(d + 4 - dir % 4) % 4, by omega, by omega⟩
          have heq : tryDir bm w h cx cy (dir + k) = tryDir bm w h cx cy d := by
            rw [tryDir_mod, hkd]
          interval_cases k
          · rw [Nat.add_zero] at heq
            rw [h0] at heq
            rw [← heq] at hds
            simp at hds
          · rw [h1] at heq
            rw [← heq] at hds
            simp at hds
          · rw [h2] at heq
            rw [← heq] at hds
            simp at hds
          · rw [h3] at heq
            rw [← heq] at hds
            simp at hds

/-- When every foreground pixel has a foreground 4-neighbour, a trace
started on a foreground pixel always produces a contour of more than 2
points, provided enough budget: the search never fails, so the loop stops
only through the closed-contour check (which requires more than 2 points)
or through budget exhaustion (after `fuel` pushes). -/
lemma traceLoop_length (bm : ℕ → ℕ) (w h sx sy : ℕ)
    (hnbr : ∀ x y, x < w → y < h → bm (y * w + x) = 1 →
      ∃ d, d < 4 ∧ (tryDir bm w h x y d).isSome) :
    ∀ (fuel cx cy dir : ℕ) (vis : ℕ → Bool) (rev : List (ℕ × ℕ)),
      cx < w → cy < h → bm (cy * w + cx) = 1 →
      min (rev.length + fuel) 3 ≤
        (traceLoop bm w h sx sy fuel cx cy dir vis rev).contour.length := by
  intro fuel
  induction fuel with
  | zero =>
    intro cx cy dir vis rev _ _ _
    rw [traceLoop]
    simp only [List.length_reverse]
    omega
  | succ fuel ih =>
    intro cx cy dir vis rev hx hy hfg
    rw [traceLoop]
    have hsome := searchDir_isSome bm w h cx cy dir (hnbr cx cy hx hy hfg)
    obtain ⟨r, hr⟩ := Option.isSome_iff_exists.mp hsome
    obtain ⟨d, nx, ny⟩ := r
    rw [hr]
    dsimp only
    obtain ⟨d', hd'⟩ := searchDir_eq_some bm w h cx cy dir (d, nx, ny) hr
    obtain ⟨hnx, hny, hnfg⟩ := tryDir_eq_some bm w h cx cy d' (d, nx, ny) hd'
    split
    case isTrue hclose =>
      dsimp only
      rw [List.length_reverse, List.length_cons]
      rw [List.length_cons] at hclose
      omega
    case isFalse hclose =>
      have := ih nx ny ((d + 3) % 4)
        (fun j => if j = cy * w + cx then true else vis j) ((cx, cy) :: rev)
        hnx hny hnfg
      rw [List.length_cons] at this
      omega

/-- Contours already accumulated stay in the scan's final output. -/
lemma findContoursAux_mem_acc (bm : ℕ → ℕ) (w h : ℕ) :
    ∀ (pending : List (ℕ × ℕ)) (vis : ℕ → Bool) (acc : List (List (ℕ × ℕ)))
      (c : List (ℕ × ℕ)), c ∈ acc → c ∈ findContoursAux bm w h pending vis acc := by
  intro pending
  induction pending with
  | nil =>
    intro vis acc c hc
    rw [findContoursAux]
    exact hc
  | cons p rest ih =>
    intro vis acc c hc
    obtain ⟨x, y⟩ := p
    rw [findContoursAux]
    dsimp only
    split
    · split
      · exact ih _ _ c (List.mem_append_left _ hc)
      · exact ih _ _ c hc
    · exact ih _ _ c hc

/-- If the pending scan list still holds an unvisited in-bounds
foreground pixel (or something was already accumulated), the scan's final
output is nonempty — the trace seeded there cannot produce a short
contour when every foreground pixel has a foreground neighbour and the
budget is at least 3. -/
lemma findContoursAux_ne_nil (bm : ℕ → ℕ) (w h : ℕ)
    (hnbr : ∀ x y, x < w → y < h → bm (y * w + x) = 1 →
      ∃ d, d < 4 ∧ (tryDir bm w h x y d).isSome)
    (hwh : 3 ≤ w * h) :
    ∀ (pending : List (ℕ × ℕ)) (vis : ℕ → Bool) (acc : List (List (ℕ × ℕ))),
      (∀ p ∈ pending, p.1 < w ∧ p.2 < h) →
      ((∃ p ∈ pending, bm (p.2 * w + p.1) = 1 ∧ vis (p.2 * w + p.1) = false) ∨
        acc ≠ []) →
      findContoursAux bm w h pending vis acc ≠ [] := by
  intro pending
  induction pending with
  | nil =>
    intro vis acc _ hex
    rw [findContoursAux]
    rcases hex with ⟨p, hp, _⟩ | hacc
    · exact absurd hp (List.not_mem_nil p)
    · exact hacc
  | cons p rest ih =>
    intro vis acc hbnd hex
    obtain ⟨x, y⟩ := p
    rw [findContoursAux]
    dsimp only
    by_cases hcond : bm (y * w + x) = 1 ∧ vis (y * w + x) = false
    · rw [if_pos hcond]
      have hxw : x < w := (hbnd (x, y) (List.mem_cons_self _ _)).1
      have hyh : y < h := (hbnd (x, y) (List.mem_cons_self _ _)).2
      have hlen := traceLoop_length bm w h x y hnbr (w * h) x y 0 vis []
        hxw hyh hcond.1
      rw [List.length_nil] at hlen
      have hlen3 : 2 < (traceContour bm w h x y vis).contour.length := by
        unfold traceContour
        omega
      rw [if_pos hlen3]
      apply ih
      · intro q hq
        exact hbnd q (List.mem_cons_of_mem _ hq)
      · right
        intro hnil
        have := congrArg List.length hnil
        rw [List.length_append] at this
        simp at this
    · rw [if_neg hcond]
      apply ih
      · intro q hq
        exact hbnd q (List.mem_cons_of_mem _ hq)
      · rcases hex with ⟨q, hq, hqfg, hqv⟩ | hacc
        · rcases List.mem_cons.mp hq with hq' | hq'
          · exfalso
            rw [hq'] at hqfg hqv
            exact hcond ⟨hqfg, hqv⟩
          · exact Or.inl ⟨q, hq', hqfg, hqv⟩
        · exact Or.inr hacc

/-- Every pixel of the row-major scan order is in bounds. -/
lemma scanOrder_bounds (w h : ℕ) (p : ℕ × ℕ) (hp : p ∈ scanOrder w h) :
    p.1 < w ∧ p.2 < h := by
  unfold scanOrder at hp
  rw [List.mem_flatMap] at hp
  obtain ⟨y, hy, hp'⟩ := hp
  rw [List.mem_map] at hp'
  obtain ⟨x, hx, hp''⟩ := hp'
  rw [← hp'']
  exact ⟨List.mem_range.mp hx, List.mem_range.mp hy⟩

/-- Every in-bounds pixel occurs in the row-major scan order. -/
lemma mem_scanOrder (w h x y : ℕ) (hx : x < w) (hy : y < h) :
    (x, y) ∈ scanOrder w h := by
  unfold scanOrder
  rw [List.mem_flatMap]
  exact ⟨y, List.mem_range.mpr hy, List.mem_map.mpr ⟨x, List.mem_range.mpr hx, rfl⟩⟩

/-- A `tryDir` attempt succeeds when its target neighbour is in bounds
and foreground. -/
lemma tryDir_isSome_of (bm : ℕ → ℕ) (w h cx cy d nx ny : ℕ)
    (hd : d < 4)
    (hdx : (nx : ℤ) = (cx : ℤ) + dxs.getD d 0)
    (hdy : (ny : ℤ) = (cy : ℤ) + dys.getD d 0)
    (hxw : nx < w) (hyh : ny < h) (hfg : bm (ny * w + nx) = 1) :
    (tryDir bm w h cx cy d).isSome := by
  unfold tryDir
  rw [Nat.mod_eq_of_lt hd]
  rw [if_pos]
  · rfl
  · have h1 : ((cx : ℤ) + dxs.getD d 0).toNat = nx := by omega
    have h2 : ((cy : ℤ) + dys.getD d 0).toNat = ny := by omega
    refine ⟨by omega, by omega, by omega, by omega, ?_⟩
    rw [h1, h2]
    exact hfg

/-- On a filled-rectangle bitmap with width at least 2, every foreground
pixel has an in-bounds foreground horizontal neighbour. -/
lemma rect_nbr (bm : ℕ → ℕ) (w h x0 y0 dw dh : ℕ)
    (hdw : 2 ≤ dw) (hxw : x0 + dw ≤ w)
    (hbm : ∀ x y, x < w → y < h →
      (bm (y * w + x) = 1 ↔ x0 ≤ x ∧ x < x0 + dw ∧ y0 ≤ y ∧ y < y0 + dh)) :
    ∀ x y, x < w → y < h → bm (y * w + x) = 1 →
      ∃ d, d < 4 ∧ (tryDir bm w h x y d).isSome := by
  intro x y hx hy hfg
  obtain ⟨hr1, hr2, hr3, hr4⟩ := (hbm x y hx hy).mp hfg
  by_cases hxr : x + 1 < x0 + dw
  · refine ⟨0, by omega, tryDir_isSome_of bm w h x y 0 (x + 1) y (by omega) ?_ ?_
      (by omega) hy ?_⟩
    · rw [show dxs.getD 0 0 = 1 from rfl]
      omega
    · rw [show dys.getD 0 0 = 0 from rfl]
      omega
    · exact (hbm (x + 1) y (by omega) hy).mpr ⟨by omega, hxr, hr3, hr4⟩
  · refine ⟨2, by omega, tryDir_isSome_of bm w h x y 2 (x - 1) y (by omega) ?_ ?_
      (by omega) hy ?_⟩
    · rw [show dxs.getD 2 0 = -1 from rfl]
      omega
    · rw [show dys.getD 2 0 = 0 from rfl]
      omega
    · exact (hbm (x - 1) y (by omega) hy).mpr ⟨by omega, by omega, hr3, hr4⟩

/-! ### Claim theorems for the ContourTracer -/

/-- C2 (counterexample): the occupancy grid whose foreground is a single
filled 3×3 rectangle (the whole 3×3 grid) makes `findContours` return
*two* contours, not one: the neighbour search ignores the visited marks,
so after the 8-pixel boundary ring is traced the unvisited interior pixel
(1,1) seeds a second 4-point contour through already-visited pixels. -/
theorem findContours_filled_3x3_two_contours :
    (findContours (fun _ => 1) 3 3).length = 2 ∧
    ¬ (findContours (fun _ => 1) 3 3).length = 1 := by
  constructor
  · decide
  · decide

/-- C2 (amended): for every occupancy grid whose foreground pixels form a
single filled `dw × dh` axis-aligned rectangle with `dw, dh ≥ 2`, the
tracer returns *at least* one contour (it can return more than one when
the rectangle has interior pixels — see the counterexample). -/
theorem findContours_rect_at_least_one (bm : ℕ → ℕ) (w h x0 y0 dw dh : ℕ)
    (hdw : 2 ≤ dw) (hdh : 2 ≤ dh) (hxw : x0 + dw ≤ w) (hyh : y0 + dh ≤ h)
    (hbm : ∀ x y, x < w → y < h →
      (bm (y * w + x) = 1 ↔ x0 ≤ x ∧ x < x0 + dw ∧ y0 ≤ y ∧ y < y0 + dh)) :
    1 ≤ (findContours bm w h).length := by
  have hnbr := rect_nbr bm w h x0 y0 dw dh hdw hxw hbm
  have hwh3 : 3 ≤ w * h := by
    have : 2 * 2 ≤ w * h := Nat.mul_le_mul (by omega) (by omega)
    omega
  have hne := findContoursAux_ne_nil bm w h hnbr hwh3 (scanOrder w h)
    (fun _ => false) []
    (fun p hp => scanOrder_bounds w h p hp)
    (Or.inl ⟨(x0, y0), mem_scanOrder w h x0 y0 (by omega) (by omega),
      (hbm x0 y0 (by omega) (by omega)).mpr ⟨le_refl _, by omega, le_refl _, by omega⟩,
      rfl⟩)
  have : findContours bm w h =
      findContoursAux bm w h (scanOrder w h) (fun _ => false) [] := rfl
  rw [this]
  have := List.length_pos.mpr hne
  omega

/-- Witness for the amended C2 on the filled 2×2 grid. -/
theorem findContours_rect_at_least_one_witness :
    1 ≤ (findContours (fun _ => 1) 2 2).length :=
  findContours_rect_at_least_one (fun _ => 1) 2 2 0 0 2 2
    (by norm_num) (by norm_num) (by norm_num) (by norm_num)
    (by intro x y hx hy; simp; omega)

/-- C4 (counterexample): on the all-foreground 3×1 grid the single trace
exhausts its step budget `width * height = 3` (the trace oscillates and
never returns to the seed), yet its 3-point contour *is* kept in the
output — budget-exceeded contours are not discarded when they have more
than 2 points. -/
theorem trace_budget_contour_not_discarded :
    (traceContour (fun _ => 1) 3 1 0 0 (fun _ => false)).budgetHit = true ∧
    2 < (traceContour (fun _ => 1) 3 1 0 0 (fun _ => false)).contour.length ∧
    (traceContour (fun _ => 1) 3 1 0 0 (fun _ => false)).contour ∈
      findContours (fun _ => 1) 3 1 := by
  refine ⟨by decide, by decide, by decide⟩

/-- C4 (amended): when a contour trace reaches its hard step budget the
loop stops without crashing and scanning continues with the next pixels;
the truncated contour is dropped only when it has at most 2 points, and is
kept in the tracer's output whenever it has more than 2 points. -/
theorem trace_budget_behaviour (bm : ℕ → ℕ) (w h x y : ℕ)
    (rest : List (ℕ × ℕ)) (vis : ℕ → Bool) (acc : List (List (ℕ × ℕ)))
    (hfg : bm (y * w + x) = 1) (hnv : vis (y * w + x) = false)
    (_hb : (traceContour bm w h x y vis).budgetHit = true) :
    (2 < (traceContour bm w h x y vis).contour.length →
      (traceContour bm w h x y vis).contour ∈
        findContoursAux bm w h ((x, y) :: rest) vis acc) ∧
    (¬ 2 < (traceContour bm w h x y vis).contour.length →
      findContoursAux bm w h ((x, y) :: rest) vis acc =
        findContoursAux bm w h rest (traceContour bm w h x y vis).visited acc) := by
  constructor
  · intro hlen
    rw [findContoursAux]
    dsimp only
    rw [if_pos ⟨hfg, hnv⟩, if_pos hlen]
    exact findContoursAux_mem_acc bm w h rest _ _ _
      (List.mem_append_right acc (List.mem_singleton.mpr rfl))
  · intro hlen
    rw [findContoursAux]
    dsimp only
    rw [if_pos ⟨hfg, hnv⟩, if_neg hlen]

/-- Witness for the amended C4 at the concrete 3×1 budget-exhausting
grid. -/
theorem trace_budget_behaviour_witness :
    (2 < (traceContour (fun _ => 1) 3 1 0 0 (fun _ => false)).contour.length →
      (traceContour (fun _ => 1) 3 1 0 0 (fun _ => false)).contour ∈
        findContoursAux (fun _ => 1) 3 1 ((0, 0) :: [(1, 0), (2, 0)])
          (fun _ => false) []) ∧
    (¬ 2 < (traceContour (fun _ => 1) 3 1 0 0 (fun _ => false)).contour.length →
      findContoursAux (fun _ => 1) 3 1 ((0, 0) :: [(1, 0), (2, 0)])
          (fun _ => false) [] =
        findContoursAux (fun _ => 1) 3 1 [(1, 0), (2, 0)]
          (traceContour (fun _ => 1) 3 1 0 0 (fun _ => false)).visited []) :=
  trace_budget_behaviour (fun _ => 1) 3 1 0 0 [(1, 0), (2, 0)]
    (fun _ => false) [] (by decide) (by decide) (by decide)

end GifSpinner
